import Mathlib

/-!
Verification of the address-space and identifier-space bookkeeping of
`litex/soc/integration/soc.py`: the `SoCRegion` decoder, the `SoCBus`
region/slave registries, the `SoCCSR` location allocator and the `SoCIRQ`
line allocator.

The Python classes are embedded shallowly:

* a Python `dict` (insertion ordered, assignment to an existing key keeps
  its position) becomes a `List (String × _)` together with `dictInsert`;
* a method that mutates `self` and may `raise` becomes a function
  `State → ... → Except Err α × State`, returning the state as it stands
  when the exception propagates (Python does not roll mutations back);
* Python unbounded non-negative integers become `ℕ`; values that the code
  compares against `0` (CSR/IRQ locations) become `ℤ`;
* the bare `raise` statements are tagged with the logical error kind that
  the preceding `logger.error` call describes; the `NameError` crashes the
  source can run into (use of an unbound variable) get their own tag.
-/

namespace LitexSoC

/-! ## migen helper

`log2_int(n, need_pow2=False)` from migen: `0` when `n == 0`, otherwise
`(n - 1).bit_length()`.  `Nat.size` is exactly Python's `bit_length`, and
`0 - 1 = 0` in `ℕ` makes the zero case coincide. -/

def log2_int (n : ℕ) : ℕ := Nat.size (n - 1)

/-! ## SoCRegion.decoder -/

/-- Error kind of `SoCRegion.decoder`: "Origin needs to be aligned on size". -/
inductive RegionErr where
  | alignment
deriving DecidableEq, Repr

/-- Python `origin &= ~0x80000000`: clear address bit 31 and keep every other
bit.  Writing `x = (x / 2^32)·2^32 + b·2^31 + (x % 2^31)` with `b` the value of
bit 31, the mask removes exactly the `b·2^31` summand. -/
def clearTopBit (x : ℕ) : ℕ := x % 2 ^ 31 + 2 ^ 32 * (x / 2 ^ 32)

/-- `SoCRegion.decoder`.  `origin` and `size` are the region's byte origin and
byte size.  The alignment test `(origin & (size - 1)) != 0` with `size` a
power of two is reduction modulo `size`.  The returned predicate takes the
value of the 30-bit word-address signal `a`; the migen slice
`a[log2_int(size):-1]` keeps bits `log2_int(size), …, 28` of it, which is
division by `2 ^ log2_int size` followed by reduction modulo
`2 ^ (29 - log2_int size)`. -/
def decoder (origin size : ℕ) : Except RegionErr (ℕ → Bool) :=
  let origin1 := clearTopBit origin
  let size1 := 2 ^ log2_int size
  if origin1 % size1 ≠ 0 then
    Except.error RegionErr.alignment
  else
    let originW := origin1 / 4
    let sizeW := size1 / 4
    Except.ok fun a =>
      (a / 2 ^ log2_int sizeW) % 2 ^ (29 - log2_int sizeW) == originW / 2 ^ log2_int sizeW

/-! ### Facts about `log2_int` -/

theorem le_two_pow_log2_int {n : ℕ} (hn : 1 ≤ n) : n ≤ 2 ^ log2_int n := by
  have h := Nat.lt_size_self (n - 1)
  unfold log2_int
  omega

theorem two_pow_log2_int_lt {n : ℕ} (hn : 1 ≤ n) : 2 ^ log2_int n < 2 * n := by
  unfold log2_int
  rcases Nat.lt_or_ge n 2 with h2 | h2
  · interval_cases n
    simp [Nat.size]
  · have h1 : 1 ≤ n - 1 := by omega
    have hs : 0 < Nat.size (n - 1) := Nat.lt_size.mpr (by simpa using h1)
    have hle : 2 ^ (Nat.size (n - 1) - 1) ≤ n - 1 :=
      Nat.lt_size.mp (by omega)
    have : 2 ^ Nat.size (n - 1) = 2 * 2 ^ (Nat.size (n - 1) - 1) := by
      rw [← pow_succ']
      congr 1
      omega
    omega

theorem log2_int_two_pow (j : ℕ) : log2_int (2 ^ j) = j := by
  unfold log2_int
  rcases Nat.eq_zero_or_pos j with rfl | hj
  · simp [Nat.size]
  · apply le_antisymm
    · exact Nat.size_le.mpr (by have := Nat.one_le_two_pow (n := j); omega)
    · have h1 : 2 ^ (j - 1) ≤ 2 ^ j - 1 := by
        have : 2 ^ j = 2 * 2 ^ (j - 1) := by
          rw [← pow_succ']
          congr 1
          omega
        have := Nat.one_le_two_pow (n := j - 1)
        omega
      have := Nat.lt_size.mpr h1
      omega

theorem clearTopBit_lt {x : ℕ} (hx : x < 2 ^ 32) : clearTopBit x < 2 ^ 31 := by
  unfold clearTopBit
  omega

/-- Claim C4: `decoder` rounds `size` up to the next power of two `2 ^ log2_int size`
(part 1), fails with an `AlignmentError` exactly when the origin with the top
address bit cleared is not a multiple of the rounded size (part 2), and
otherwise returns the predicate accepting a word address exactly when its high
bits above the `log2_int size - 2` word-offset bits equal the region's word
origin shifted by the same amount (part 3; word addresses carry 30 bits of
which bit 29, the top address bit, is reserved, so addresses below `2 ^ 29`
are considered). -/
theorem decoder_correct (origin size : ℕ) (h4 : 4 ≤ size) (h32 : origin < 2 ^ 32) :
    (size ≤ 2 ^ log2_int size ∧ 2 ^ log2_int size < 2 * size)
    ∧ (decoder origin size = Except.error RegionErr.alignment
        ↔ ¬ (2 ^ log2_int size ∣ clearTopBit origin))
    ∧ (∀ p, decoder origin size = Except.ok p → ∀ a, a < 2 ^ 29 →
        (p a = true ↔
          a / 2 ^ (log2_int size - 2)
            = clearTopBit origin / 4 / 2 ^ (log2_int size - 2))) := by
  have hm2 : 2 ≤ log2_int size := by
    have hmono : log2_int 4 ≤ log2_int size := Nat.size_le_size (by omega)
    have h42 : log2_int 4 = 2 := by
      have := log2_int_two_pow 2
      norm_num at this
      omega
    omega
  have hS4 : 2 ^ log2_int size / 4 = 2 ^ (log2_int size - 2) := by
    rw [show (4 : ℕ) = 2 ^ 2 by norm_num, Nat.pow_div hm2 (by norm_num)]
  have hlogW : log2_int (2 ^ log2_int size / 4) = log2_int size - 2 := by
    rw [hS4, log2_int_two_pow]
  refine ⟨⟨le_two_pow_log2_int (by omega), two_pow_log2_int_lt (by omega)⟩, ?_, ?_⟩
  · simp only [decoder]
    split_ifs with h
    · constructor
      · intro _
        rw [Nat.dvd_iff_mod_eq_zero]
        exact h
      · intro _
        rfl
    · have hd : 2 ^ log2_int size ∣ clearTopBit origin :=
        Nat.dvd_iff_mod_eq_zero.mpr (by omega)
      simp [hd]
  · intro p hp a ha
    simp only [decoder] at hp
    split_ifs at hp with h
    · have hp' := Except.ok.inj hp
      subst hp'
      simp only [beq_iff_eq]
      rw [hlogW]
      rcases le_or_lt (log2_int size - 2) 29 with hle | hgt
      · have hlt : a / 2 ^ (log2_int size - 2) < 2 ^ (29 - (log2_int size - 2)) := by
          rw [Nat.div_lt_iff_lt_mul (Nat.pos_pow_of_pos _ (by norm_num))]
          calc a < 2 ^ 29 := ha
            _ = 2 ^ (29 - (log2_int size - 2)) * 2 ^ (log2_int size - 2) := by
                rw [← pow_add]
                congr 1
                omega
        rw [Nat.mod_eq_of_lt hlt]
      · have h0 : 29 - (log2_int size - 2) = 0 := by omega
        have ha' : a / 2 ^ (log2_int size - 2) = 0 :=
          Nat.div_eq_of_lt
            (lt_of_lt_of_le ha (Nat.pow_le_pow_right (by norm_num) (by omega)))
        have ho' : clearTopBit origin / 4 / 2 ^ (log2_int size - 2) = 0 := by
          apply Nat.div_eq_of_lt
          have h1 : clearTopBit origin < 2 ^ 31 := clearTopBit_lt h32
          have h2 : clearTopBit origin / 4 < 2 ^ 29 := by omega
          exact lt_of_lt_of_le h2 (Nat.pow_le_pow_right (by norm_num) (by omega))
        rw [h0, ha', ho']
        simp

/-- Witness for C4: the theorem instantiated at the spec's own example region,
`origin = 0x10000000`, `size = 0x1000`. -/
theorem decoder_correct_witness :
    4 ≤ 0x1000 ∧ 0x10000000 < 2 ^ 32
    ∧ ((0x1000 ≤ 2 ^ log2_int 0x1000 ∧ 2 ^ log2_int 0x1000 < 2 * 0x1000)
      ∧ (decoder 0x10000000 0x1000 = Except.error RegionErr.alignment
          ↔ ¬ (2 ^ log2_int 0x1000 ∣ clearTopBit 0x10000000))
      ∧ (∀ p, decoder 0x10000000 0x1000 = Except.ok p → ∀ a, a < 2 ^ 29 →
          (p a = true ↔
            a / 2 ^ (log2_int 0x1000 - 2)
              = clearTopBit 0x10000000 / 4 / 2 ^ (log2_int 0x1000 - 2)))) :=
  ⟨by norm_num, by norm_num,
    decoder_correct 0x10000000 0x1000 (by norm_num) (by norm_num)⟩

/-! ## SoCBus

`SoCBus.__init__` validates `standard ∈ ["wishbone"]`, `data_width ∈ [32, 64]`
and `address_width ∈ [32]` and starts from empty `regions`/`masters`/`slaves`
dicts; every later mutation of the region table goes through `add_region`.
Since the only accepted address width is 32, the allocation search space
bound `2 ** self.address_width` is embedded as the literal `2 ^ 32`. -/

/-- A region as stored in `SoCBus.regions`: both paths of `add_region` that
write the table store a region whose `origin` is a concrete integer.
`linker` is the `isinstance(_, SoCLinkerRegion)` tag. -/
structure Region where
  origin : ℕ
  size : ℕ
  cached : Bool
  linker : Bool
deriving DecidableEq, Repr

/-- A region as passed to `add_region`/`add_slave`: `SoCRegion(origin, size,
cached)` where `origin=None` requests an allocation, or a `SoCLinkerRegion`
(`linker = true`). -/
structure RegionArg where
  origin : Option ℕ
  size : ℕ
  cached : Bool
  linker : Bool
deriving DecidableEq, Repr

/-- Error kinds of the `SoCBus` methods, by the message logged before each
bare `raise`; `nameError` is the Python `NameError` that
`alloc_region` runs into when it reads the unbound variable `name`. -/
inductive BusErr where
  | overlap (n0 n1 : String)
  | outOfSpace
  | nameError
  | regionNotFound
  | duplicateSlave
  | slaveSpec
deriving DecidableEq, Repr

/-- Python `d[k] = v` on an insertion-ordered `dict`: overwriting an existing
key keeps its position, a fresh key is appended. -/
def dictInsert {α : Type} (l : List (String × α)) (k : String) (v : α) :
    List (String × α) :=
  if l.any (fun p => p.1 == k) then
    l.map fun p => if p.1 == k then (k, v) else p
  else
    l ++ [(k, v)]

/-- The pairwise test inside `SoCBus.check_region`: skip the pair when either
region is a `SoCLinkerRegion`, otherwise the regions conflict unless one lies
entirely before the other. -/
def overlapPair (r0 r1 : Region) : Bool :=
  if r0.linker || r1.linker then false
  else if r0.origin ≥ r1.origin + r1.size then false
  else if r1.origin ≥ r0.origin + r0.size then false
  else true

/-- Inner loop of `SoCBus.check_region`: first `n1` after `n0` whose region
conflicts with `r0`. -/
def firstConflict (n0 : String) (r0 : Region) :
    List (String × Region) → Option (String × String)
  | [] => none
  | (n1, r1) :: rest =>
    if overlapPair r0 r1 then some (n0, n1) else firstConflict n0 r0 rest

/-- `SoCBus.check_region`: scan every unordered pair in table order and return
the first conflicting pair of names, or `none`. -/
def check_region : List (String × Region) → Option (String × String)
  | [] => none
  | (n0, r0) :: rest =>
    match firstConflict n0 r0 rest with
    | some c => some c
    | none => check_region rest

/-- Candidate test inside `SoCBus.alloc_region`: the first already-registered
region that conflicts with the candidate (the Python breaks out of the `for`
loop at the first conflict). -/
def findOverlapReg : List (String × Region) → Region → Option Region
  | [], _ => none
  | p :: rest, cand =>
    if overlapPair p.2 cand then some p.2 else findOverlapReg rest cand

/-- The `while` loop of `SoCBus.alloc_region` over the cached search window
`origin = 0, size = 2 ^ 32 - 1`: propose `[origin, origin + size)`, advance to
the end of the first conflicting region, stop when the window is exhausted.
Every retry strictly increases `origin`, so the loop runs at most `2 ^ 32`
times; `fuel` is initialised to that bound and can therefore never run out
before the window check stops the loop. -/
def allocScan (regs : List (String × Region)) (size : ℕ) (cached : Bool) :
    ℕ → ℕ → Except BusErr Region
  | 0, _ => Except.error BusErr.outOfSpace
  | fuel + 1, origin =>
    if origin + size < 2 ^ 32 - 1 then
      match findOverlapReg regs ⟨origin, size, cached, false⟩ with
      | some r => allocScan regs size cached fuel (r.origin + r.size)
      | none => Except.ok ⟨origin, size, cached, false⟩
    else
      Except.error BusErr.outOfSpace

/-- The bus allocator's mutable state: the named region table and the slave
name registry (slave handles are opaque to the allocator). -/
structure BusState where
  regions : List (String × Region)
  slaves : List String
deriving DecidableEq, Repr

/-- `SoCBus.alloc_region(size, cached)`.  The source first builds
`uncached_regions` by iterating over all registered regions; its loop body
`uncached_regions[name] = region` reads the unbound variable `name`, so the
construction raises `NameError` as soon as any registered region has
`cached == False` — before `cached` is even consulted.  Otherwise the
uncached pool is empty: a `cached=False` request scans no search region and
falls through to the out-of-space failure, and a `cached=True` request scans
the full `[0, 2 ** 32)` window. -/
def alloc_region (st : BusState) (size : ℕ) (cached : Bool) :
    Except BusErr Region :=
  if st.regions.any (fun p => p.2.cached == false) then
    Except.error BusErr.nameError
  else if cached then
    allocScan st.regions size cached (2 ^ 32) 0
  else
    Except.error BusErr.outOfSpace

/-- `SoCBus.add_region(name, region)`.  A `SoCLinkerRegion` is only logged
("FIXME: SoCLinkerRegion") and never registered.  A region without an origin
is allocated through `alloc_region` and registered without a further check.  A
region with an origin is registered first and the whole table is then
re-validated; on a conflict the exception propagates with the table still
holding the new region. -/
def add_region (st : BusState) (name : String) (region : RegionArg) :
    Except BusErr Unit × BusState :=
  if region.linker then
    (Except.ok (), st)
  else
    match region.origin with
    | none =>
      match alloc_region st region.size region.cached with
      | Except.error e => (Except.error e, st)
      | Except.ok r =>
        (Except.ok (), ⟨dictInsert st.regions name r, st.slaves⟩)
    | some o =>
      match check_region (dictInsert st.regions name ⟨o, region.size, region.cached, false⟩) with
      | some c =>
        (Except.error (BusErr.overlap c.1 c.2),
          ⟨dictInsert st.regions name ⟨o, region.size, region.cached, false⟩, st.slaves⟩)
      | none =>
        (Except.ok (),
          ⟨dictInsert st.regions name ⟨o, region.size, region.cached, false⟩, st.slaves⟩)

/-- Tail of `SoCBus.add_slave`: the duplicate-name check and the registration
of the slave, shared by the with-region and without-region paths. -/
def slaveFinish (st : BusState) (nm : String) : Except BusErr Unit × BusState :=
  if st.slaves.contains nm then
    (Except.error BusErr.duplicateSlave, st)
  else
    (Except.ok (), ⟨st.regions, st.slaves ++ [nm]⟩)

/-- The `no_region` path of `SoCBus.add_slave`: the slave's region is looked
up by name (`RegionNotFoundError` when absent), then the duplicate-slave
check runs. -/
def slaveNoRegion (st : BusState) (nm : String) : Except BusErr Unit × BusState :=
  match st.regions.lookup nm with
  | none => (Except.error BusErr.regionNotFound, st)
  | some _ => slaveFinish st nm

/-- The with-region path of `SoCBus.add_slave`: the region is registered
through `add_region` first, and only then does the duplicate-slave check
run. -/
def slaveWithRegion (st : BusState) (nm : String) (rg : RegionArg) :
    Except BusErr Unit × BusState :=
  match add_region st nm rg with
  | (Except.ok _, st') => slaveFinish st' nm
  | (Except.error e, st') => (Except.error e, st')

/-- `SoCBus.add_slave(name, slave, region)`: at least one of `name`/`region`
is required; a missing name is auto-generated as `"slave<N>"`. -/
def add_slave (st : BusState) (name : Option String) (region : Option RegionArg) :
    Except BusErr Unit × BusState :=
  match name, region with
  | none, none => (Except.error BusErr.slaveSpec, st)
  | none, some rg => slaveWithRegion st ("slave" ++ toString st.slaves.length) rg
  | some nm, none => slaveNoRegion st nm
  | some nm, some rg => slaveWithRegion st nm rg

/-- One call on the bus allocator's region-table-touching interface. -/
inductive BusOp where
  | region (name : String) (arg : RegionArg)
  | slave (name : Option String) (region : Option RegionArg)
deriving DecidableEq, Repr

def applyOp (st : BusState) : BusOp → Except BusErr Unit × BusState
  | BusOp.region name arg => add_region st name arg
  | BusOp.slave name region => add_slave st name region

/-- Run a sequence of calls, stopping at the first one that raises. -/
def runOps (st : BusState) : List BusOp → Except BusErr Unit × BusState
  | [] => (Except.ok (), st)
  | op :: rest =>
    match applyOp st op with
    | (Except.ok _, st') => runOps st' rest
    | (Except.error e, st') => (Except.error e, st')

/-- The freshly constructed bus allocator: `SoCBus.__init__` starts from empty
tables (its reserved regions are themselves `add_region` calls). -/
def emptyBus : BusState := ⟨[], []⟩

/-! ## The no-overlap invariant -/

/-- The spec's non-overlap condition on one unordered pair of table entries:
unless one of the two is a linker region,
`r0.origin ≥ r1.origin + r1.size ∨ r1.origin ≥ r0.origin + r0.size`. -/
def RegionPairOk (r0 r1 : Region) : Prop :=
  r0.linker = false → r1.linker = false →
    r0.origin ≥ r1.origin + r1.size ∨ r1.origin ≥ r0.origin + r0.size

/-- The table-wide no-overlap invariant: every unordered pair of entries is
non-overlapping (linker entries exempt). -/
def NoOverlap (regs : List (String × Region)) : Prop :=
  regs.Pairwise fun p q => RegionPairOk p.2 q.2

/-- Invariant carried through the `SoCBus` operations: the region table is
overlap-free and (being a Python `dict`) has pairwise-distinct names. -/
def BusInv (st : BusState) : Prop :=
  NoOverlap st.regions ∧ (st.regions.map Prod.fst).Nodup

theorem regionPairOk_symm {r0 r1 : Region} (h : RegionPairOk r0 r1) :
    RegionPairOk r1 r0 :=
  fun h1 h0 => (h h0 h1).symm

theorem regionPairOk_of_not_overlap {r0 r1 : Region}
    (h : overlapPair r0 r1 = false) : RegionPairOk r0 r1 := by
  intro h0 h1
  unfold overlapPair at h
  split_ifs at h with hl hge1 hge2
  · simp [h0, h1] at hl
  · exact Or.inl hge1
  · exact Or.inr hge2

theorem firstConflict_none {n0 : String} {r0 : Region} :
    ∀ {l : List (String × Region)}, firstConflict n0 r0 l = none →
      ∀ p ∈ l, overlapPair r0 p.2 = false
  | [], _, p, hp => absurd hp (List.not_mem_nil p)
  | (n1, r1) :: rest, h, p, hp => by
    unfold firstConflict at h
    split_ifs at h with hov
    rcases List.mem_cons.mp hp with rfl | htail
    · exact Bool.not_eq_true _ ▸ hov
    · exact firstConflict_none h p htail

theorem check_region_none : ∀ {l : List (String × Region)},
    check_region l = none → NoOverlap l
  | [], _ => List.Pairwise.nil
  | (n0, r0) :: rest, h => by
    unfold check_region at h
    cases hfc : firstConflict n0 r0 rest with
    | some c => rw [hfc] at h; exact absurd h (by simp)
    | none =>
      rw [hfc] at h
      exact List.Pairwise.cons
        (fun q hq => regionPairOk_of_not_overlap (firstConflict_none hfc q hq))
        (check_region_none h)

theorem firstConflict_some {m0 : String} {s0 : Region} :
    ∀ {l : List (String × Region)} {n0 n1 : String},
      firstConflict m0 s0 l = some (n0, n1) →
        ∃ r1, (n1, r1) ∈ l ∧ n0 = m0 ∧ overlapPair s0 r1 = true
  | [], _, _, h => by simp [firstConflict] at h
  | (k1, q1) :: rest, n0, n1, h => by
    unfold firstConflict at h
    split_ifs at h with hov
    · obtain ⟨rfl, rfl⟩ : m0 = n0 ∧ k1 = n1 := by
        constructor <;> injection h with h1 <;> injection h1
      exact ⟨q1, List.mem_cons_self _ _, rfl, hov⟩
    · obtain ⟨r1, hmem, he, hov'⟩ := firstConflict_some h
      exact ⟨r1, List.mem_cons_of_mem _ hmem, he, hov'⟩

/-- When `check_region` reports a pair of names, both really are table entries
and their regions really conflict (neither is a linker region and the
non-overlap disjunction fails). -/
theorem check_region_some : ∀ {l : List (String × Region)} {n0 n1 : String},
    check_region l = some (n0, n1) →
      ∃ r0 r1, (n0, r0) ∈ l ∧ (n1, r1) ∈ l ∧ overlapPair r0 r1 = true
  | [], _, _, h => by simp [check_region] at h
  | (m0, s0) :: rest, n0, n1, h => by
    unfold check_region at h
    cases hfc : firstConflict m0 s0 rest with
    | some c =>
      rw [hfc] at h
      obtain rfl : c = (n0, n1) := by injection h
      obtain ⟨r1, hmem, rfl, hov⟩ := firstConflict_some hfc
      exact ⟨s0, r1, List.mem_cons_self _ _, List.mem_cons_of_mem _ hmem, hov⟩
    | none =>
      rw [hfc] at h
      obtain ⟨r0, r1, h0, h1, hov⟩ := check_region_some h
      exact ⟨r0, r1, List.mem_cons_of_mem _ h0, List.mem_cons_of_mem _ h1, hov⟩

theorem findOverlapReg_none {cand : Region} :
    ∀ {l : List (String × Region)}, findOverlapReg l cand = none →
      ∀ p ∈ l, overlapPair p.2 cand = false
  | [], _, p, hp => absurd hp (List.not_mem_nil p)
  | q :: rest, h, p, hp => by
    unfold findOverlapReg at h
    split_ifs at h with hov
    rcases List.mem_cons.mp hp with rfl | htail
    · exact Bool.not_eq_true _ ▸ hov
    · exact findOverlapReg_none h p htail

theorem allocScan_ok : ∀ {fuel origin : ℕ} {regs size cached r},
    allocScan regs size cached fuel origin = Except.ok r →
      findOverlapReg regs r = none ∧ r.linker = false
  | 0, _, _, _, _, _, h => by simp [allocScan] at h
  | fuel + 1, origin, regs, size, cached, r, h => by
    unfold allocScan at h
    split_ifs at h with hwin
    cases hov : findOverlapReg regs ⟨origin, size, cached, false⟩ with
    | some r' => rw [hov] at h; exact allocScan_ok h
    | none =>
      rw [hov] at h
      obtain rfl : (⟨origin, size, cached, false⟩ : Region) = r := by injection h
      exact ⟨hov, rfl⟩

theorem alloc_region_ok {st : BusState} {size : ℕ} {cached : Bool} {r : Region}
    (h : alloc_region st size cached = Except.ok r) :
    (∀ p ∈ st.regions, overlapPair p.2 r = false) ∧ r.linker = false := by
  unfold alloc_region at h
  split_ifs at h with h1 h2
  obtain ⟨hfind, hlink⟩ := allocScan_ok h
  exact ⟨findOverlapReg_none hfind, hlink⟩

theorem keys_dictInsert_overwrite {α : Type} {l : List (String × α)} {k : String}
    {v : α} (h : l.any (fun p => p.1 == k) = true) :
    (dictInsert l k v).map Prod.fst = l.map Prod.fst := by
  unfold dictInsert
  rw [if_pos h, List.map_map]
  apply List.map_congr_left
  intro p _
  by_cases hk : p.1 = k
  · simp [Function.comp, hk]
  · simp [Function.comp, hk]

theorem keysNodup_dictInsert {α : Type} {l : List (String × α)} {k : String}
    {v : α} (h : (l.map Prod.fst).Nodup) :
    ((dictInsert l k v).map Prod.fst).Nodup := by
  by_cases hmem : l.any (fun p => p.1 == k) = true
  · rw [keys_dictInsert_overwrite hmem]
    exact h
  · unfold dictInsert
    rw [if_neg hmem, List.map_append]
    rw [List.nodup_append]
    refine ⟨h, by simp, ?_⟩
    intro a ha hb
    simp only [List.map_cons, List.map_nil, List.mem_singleton] at hb
    subst hb
    obtain ⟨p, hp, hpk⟩ := List.mem_map.mp ha
    have hmem' : (l.any fun q => q.1 == a) = false := Bool.not_eq_true _ ▸ hmem
    rw [List.any_eq_false] at hmem'
    exact hmem' p hp (by simp [hpk])

theorem noOverlap_dictInsert {l : List (String × Region)} {k : String} {v : Region}
    (hnd : (l.map Prod.fst).Nodup) (hno : NoOverlap l)
    (hc : ∀ p ∈ l, overlapPair p.2 v = false) :
    NoOverlap (dictInsert l k v) := by
  unfold dictInsert
  split_ifs with hmem
  · rw [NoOverlap, List.pairwise_map]
    have hkeys : l.Pairwise fun a b => a.1 ≠ b.1 := by
      rw [← List.pairwise_map (f := Prod.fst)]
      exact hnd
    refine (hno.and hkeys).imp_of_mem ?_
    intro a b ha hb hab
    obtain ⟨hok, hne⟩ := hab
    by_cases hak : a.1 = k
    · have hbk : ¬ b.1 = k := fun hb' => hne (hb'.symm ▸ hak)
      simp only [hak, beq_self_eq_true, if_pos, hbk, beq_iff_eq, if_neg]
      exact regionPairOk_symm (regionPairOk_of_not_overlap (hc b hb))
    · by_cases hbk : b.1 = k
      · simp only [hak, hbk, beq_iff_eq, if_neg, beq_self_eq_true, if_pos]
        exact regionPairOk_of_not_overlap (hc a ha)
      · simp only [hak, hbk, beq_iff_eq, if_neg]
        exact hok
  · rw [NoOverlap, List.pairwise_append]
    refine ⟨hno, by simp [List.Pairwise], ?_⟩
    intro a ha b hb
    simp only [List.mem_singleton] at hb
    subst hb
    exact regionPairOk_of_not_overlap (hc a ha)

theorem busInv_regions {st st' : BusState} (h : st'.regions = st.regions)
    (hinv : BusInv st) : BusInv st' := by
  rw [BusInv, h]
  exact hinv

theorem slaveFinish_regions (st : BusState) (nm : String) :
    ((slaveFinish st nm).2).regions = st.regions := by
  unfold slaveFinish
  split_ifs <;> rfl

theorem add_region_inv {st : BusState} {name : String} {arg : RegionArg}
    {u : Unit} {st' : BusState}
    (hinv : BusInv st) (h : add_region st name arg = (Except.ok u, st')) :
    BusInv st' := by
  unfold add_region at h
  split_ifs at h with hl
  · injection h with h1 h2
    subst h2
    exact hinv
  · split at h
    · split at h
      · injection h with h1 h2
        exact absurd h1 (by simp)
      · rename_i r halloc
        injection h with h1 h2
        subst h2
        obtain ⟨hfar, _⟩ := alloc_region_ok halloc
        exact ⟨noOverlap_dictInsert hinv.2 hinv.1 hfar, keysNodup_dictInsert hinv.2⟩
    · split at h
      · injection h with h1 h2
        exact absurd h1 (by simp)
      · rename_i hcr
        injection h with h1 h2
        subst h2
        exact ⟨check_region_none hcr, keysNodup_dictInsert hinv.2⟩

theorem slaveFinish_inv {st : BusState} {nm : String} {u : Unit} {st' : BusState}
    (hinv : BusInv st) (h : slaveFinish st nm = (Except.ok u, st')) :
    BusInv st' := by
  have hreg := slaveFinish_regions st nm
  rw [h] at hreg
  exact busInv_regions hreg hinv

theorem slaveNoRegion_inv {st : BusState} {nm : String} {u : Unit} {st' : BusState}
    (hinv : BusInv st) (h : slaveNoRegion st nm = (Except.ok u, st')) :
    BusInv st' := by
  unfold slaveNoRegion at h
  split at h
  · injection h with h1 h2
    exact absurd h1 (by simp)
  · exact slaveFinish_inv hinv h

theorem slaveWithRegion_inv {st : BusState} {nm : String} {rg : RegionArg}
    {u : Unit} {st' : BusState}
    (hinv : BusInv st) (h : slaveWithRegion st nm rg = (Except.ok u, st')) :
    BusInv st' := by
  unfold slaveWithRegion at h
  split at h
  · rename_i st1 w har
    exact slaveFinish_inv (add_region_inv hinv har) h
  · injection h with h1 h2
    exact absurd h1 (by simp)

theorem add_slave_inv {st : BusState} {name : Option String}
    {region : Option RegionArg} {u : Unit} {st' : BusState}
    (hinv : BusInv st) (h : add_slave st name region = (Except.ok u, st')) :
    BusInv st' := by
  cases name with
  | none =>
    cases region with
    | none => simp [add_slave] at h
    | some rg => exact slaveWithRegion_inv hinv h
  | some nm =>
    cases region with
    | none => exact slaveNoRegion_inv hinv h
    | some rg => exact slaveWithRegion_inv hinv h

theorem applyOp_inv {st : BusState} {op : BusOp} {u : Unit} {st' : BusState}
    (hinv : BusInv st) (h : applyOp st op = (Except.ok u, st')) : BusInv st' := by
  cases op with
  | region name arg => exact add_region_inv hinv h
  | slave name region => exact add_slave_inv hinv h

theorem runOps_inv : ∀ {ops : List BusOp} {st st' : BusState} {u : Unit},
    BusInv st → runOps st ops = (Except.ok u, st') → BusInv st'
  | [], st, st', u, hinv, h => by
    injection h with h1 h2
    subst h2
    exact hinv
  | op :: rest, st, st', u, hinv, h => by
    unfold runOps at h
    cases hap : applyOp st op with
    | mk e st1 =>
      rw [hap] at h
      cases e with
      | ok w => exact runOps_inv (applyOp_inv hinv hap) h
      | error e' =>
        injection h with h1 h2
        exact absurd h1 (by simp)

/-- Claim C1: after every successful sequence of `add_region` / `alloc_region` /
`add_slave` calls starting from a fresh bus allocator, every unordered pair of
non-linker regions `r0, r1` in the region table satisfies
`r0.origin ≥ r1.origin + r1.size ∨ r1.origin ≥ r0.origin + r0.size`
(`alloc_region` by itself does not write the table; its registrations happen
through the origin-less `add_region` path, which `BusOp.region` covers). -/
theorem bus_no_overlap_invariant (ops : List BusOp) (st' : BusState)
    (h : runOps emptyBus ops = (Except.ok (), st')) : NoOverlap st'.regions :=
  (runOps_inv (by exact ⟨List.Pairwise.nil, List.Pairwise.nil⟩) h).1

/-- Witness for C1: a concrete successful call sequence — two explicit regions and
a slave bound to one of them — ends in an overlap-free table. -/
theorem bus_no_overlap_invariant_witness :
    runOps emptyBus
        [BusOp.region "rom" ⟨some 256, 1024, true, false⟩,
         BusOp.region "sram" ⟨some 4096, 512, true, false⟩,
         BusOp.slave (some "rom") none]
      = (Except.ok (),
          ⟨[("rom", ⟨256, 1024, true, false⟩), ("sram", ⟨4096, 512, true, false⟩)],
            ["rom"]⟩)
    ∧ NoOverlap
        (BusState.regions
          ⟨[("rom", ⟨256, 1024, true, false⟩), ("sram", ⟨4096, 512, true, false⟩)],
            ["rom"]⟩) :=
  ⟨by rfl,
    bus_no_overlap_invariant
      [BusOp.region "rom" ⟨some 256, 1024, true, false⟩,
       BusOp.region "sram" ⟨some 4096, 512, true, false⟩,
       BusOp.slave (some "rom") none] _ (by rfl)⟩

/-! ## C2, C5, C10: behaviour of the error paths -/

/-- Claim C2: `alloc_region` with `cached = False` can never return a region.  With
an uncached region registered, the search-pool construction reads the unbound
variable `name` and dies with `NameError`; with none registered, the pool is
empty and the call falls through to `OutOfSpaceError`.  The uncached
candidate pool is therefore never populated, contradicting the intended
"carve uncached allocations out of the registered uncached regions". -/
theorem alloc_region_uncached_bug :
    alloc_region ⟨[("io", ⟨0x80000000, 0x1000, false, false⟩)], []⟩ 0x100 false
      = Except.error BusErr.nameError
    ∧ alloc_region emptyBus 0x100 false = Except.error BusErr.outOfSpace
    ∧ ∀ (st : BusState) (size : ℕ) (r : Region),
        alloc_region st size false ≠ Except.ok r := by
  refine ⟨rfl, rfl, ?_⟩
  intro st size r h
  unfold alloc_region at h
  split_ifs at h
  simp_all

/-- Unfolding of the explicit-origin path of `add_region`. -/
theorem add_region_origin_some (st : BusState) (name : String) (o size : ℕ)
    (cached : Bool) :
    add_region st name ⟨some o, size, cached, false⟩
      = match check_region (dictInsert st.regions name ⟨o, size, cached, false⟩) with
        | some c =>
          (Except.error (BusErr.overlap c.1 c.2),
            ⟨dictInsert st.regions name ⟨o, size, cached, false⟩, st.slaves⟩)
        | none =>
          (Except.ok (),
            ⟨dictInsert st.regions name ⟨o, size, cached, false⟩, st.slaves⟩) := rfl

/-- Counterexample for C5: the claim's "the registration is rolled back" fails
on the code.  Adding the overlapping region `"b"` raises the overlap error
*and* leaves `"b"` registered: the table after the failing call differs from
the table before it. -/
theorem add_region_rollback_cex :
    add_region ⟨[("a", ⟨0, 16, true, false⟩)], []⟩ "b" ⟨some 8, 16, true, false⟩
      = (Except.error (BusErr.overlap "a" "b"),
          ⟨[("a", ⟨0, 16, true, false⟩), ("b", ⟨8, 16, true, false⟩)], []⟩)
    ∧ (add_region ⟨[("a", ⟨0, 16, true, false⟩)], []⟩ "b"
          ⟨some 8, 16, true, false⟩).2.regions
        ≠ [("a", ⟨0, 16, true, false⟩)] :=
  ⟨rfl, by decide⟩

/-- Claim C5 (amended): registering a non-linker region with an explicit origin that
makes the table conflict fails with an `OverlapError` carrying the names of a
pair of genuinely overlapping table entries; the registration is *not* rolled
back — the new region stays in the table — and the caller must treat
construction as aborted. -/
theorem add_region_overlap_error (st : BusState) (name : String)
    (arg : RegionArg) (o : ℕ)
    (hlink : arg.linker = false) (horig : arg.origin = some o)
    (hbad : check_region
        (dictInsert st.regions name ⟨o, arg.size, arg.cached, false⟩) ≠ none) :
    ∃ n0 n1 r0 r1,
      add_region st name arg
        = (Except.error (BusErr.overlap n0 n1),
            ⟨dictInsert st.regions name ⟨o, arg.size, arg.cached, false⟩, st.slaves⟩)
      ∧ (n0, r0) ∈ dictInsert st.regions name ⟨o, arg.size, arg.cached, false⟩
      ∧ (n1, r1) ∈ dictInsert st.regions name ⟨o, arg.size, arg.cached, false⟩
      ∧ overlapPair r0 r1 = true := by
  obtain ⟨ao, asz, ac, al⟩ := arg
  obtain rfl : ao = some o := horig
  obtain rfl : al = false := hlink
  dsimp only at hbad ⊢
  rw [add_region_origin_some]
  cases hcr : check_region (dictInsert st.regions name ⟨o, asz, ac, false⟩) with
  | none => exact absurd hcr hbad
  | some c =>
    obtain ⟨n0, n1⟩ := c
    obtain ⟨r0, r1, h0, h1, hov⟩ := check_region_some hcr
    exact ⟨n0, n1, r0, r1, rfl, h0, h1, hov⟩

/-- Witness for C5: the amended theorem at the counterexample's concrete input. -/
theorem add_region_overlap_error_witness :
    (⟨some 8, 16, true, false⟩ : RegionArg).linker = false
    ∧ (⟨some 8, 16, true, false⟩ : RegionArg).origin = some 8
    ∧ check_region (dictInsert [("a", ⟨0, 16, true, false⟩)] "b" ⟨8, 16, true, false⟩)
        ≠ none
    ∧ ∃ n0 n1 r0 r1,
        add_region ⟨[("a", ⟨0, 16, true, false⟩)], []⟩ "b" ⟨some 8, 16, true, false⟩
          = (Except.error (BusErr.overlap n0 n1),
              ⟨dictInsert [("a", ⟨0, 16, true, false⟩)] "b" ⟨8, 16, true, false⟩, []⟩)
        ∧ (n0, r0) ∈ dictInsert [("a", ⟨0, 16, true, false⟩)] "b" ⟨8, 16, true, false⟩
        ∧ (n1, r1) ∈ dictInsert [("a", ⟨0, 16, true, false⟩)] "b" ⟨8, 16, true, false⟩
        ∧ overlapPair r0 r1 = true :=
  ⟨rfl, rfl, by decide,
    add_region_overlap_error ⟨[("a", ⟨0, 16, true, false⟩)], []⟩ "b"
      ⟨some 8, 16, true, false⟩ 8 rfl rfl (by decide)⟩

/-- Claim C10: `add_slave` with an explicit region registers the region through
`add_region` *before* the duplicate-slave-name check, so when the call then
fails on a duplicate slave name the region table has already been extended
with the new region while the slave registry is unchanged. -/
theorem add_slave_region_not_rolled_back (st : BusState) (name : String)
    (arg : RegionArg) (o : ℕ)
    (hlink : arg.linker = false) (horig : arg.origin = some o)
    (hfresh : (st.regions.any fun p => p.1 == name) = false)
    (hok : check_region (st.regions ++ [(name, ⟨o, arg.size, arg.cached, false⟩)])
        = none)
    (hdup : st.slaves.contains name = true) :
    add_slave st (some name) (some arg)
      = (Except.error BusErr.duplicateSlave,
          ⟨st.regions ++ [(name, ⟨o, arg.size, arg.cached, false⟩)], st.slaves⟩) := by
  obtain ⟨ao, asz, ac, al⟩ := arg
  obtain rfl : ao = some o := horig
  obtain rfl : al = false := hlink
  show slaveWithRegion st name ⟨some o, asz, ac, false⟩ = _
  unfold slaveWithRegion
  rw [add_region_origin_some]
  have hins : dictInsert st.regions name ⟨o, asz, ac, false⟩
      = st.regions ++ [(name, ⟨o, asz, ac, false⟩)] := by
    unfold dictInsert
    rw [if_neg (by simp [hfresh])]
  rw [hins, hok]
  show slaveFinish ⟨st.regions ++ [(name, ⟨o, asz, ac, false⟩)], st.slaves⟩ name = _
  unfold slaveFinish
  rw [if_pos hdup]

/-- Witness for C10: concrete instance — slave `"ram"` already registered, fresh
region name, non-conflicting region. -/
theorem add_slave_region_not_rolled_back_witness :
    (⟨some 32, 16, true, false⟩ : RegionArg).linker = false
    ∧ (⟨some 32, 16, true, false⟩ : RegionArg).origin = some 32
    ∧ ([("rom", (⟨0, 16, true, false⟩ : Region))].any fun p => p.1 == "ram") = false
    ∧ check_region [("rom", ⟨0, 16, true, false⟩), ("ram", ⟨32, 16, true, false⟩)]
        = none
    ∧ ["ram"].contains "ram" = true
    ∧ add_slave ⟨[("rom", ⟨0, 16, true, false⟩)], ["ram"]⟩ (some "ram")
          (some ⟨some 32, 16, true, false⟩)
        = (Except.error BusErr.duplicateSlave,
            ⟨[("rom", ⟨0, 16, true, false⟩), ("ram", ⟨32, 16, true, false⟩)],
              ["ram"]⟩) :=
  ⟨rfl, rfl, by decide, by decide, by decide,
    add_slave_region_not_rolled_back ⟨[("rom", ⟨0, 16, true, false⟩)], ["ram"]⟩
      "ram" ⟨some 32, 16, true, false⟩ 32 rfl rfl (by decide) (by decide) (by decide)⟩

/-! ## SoCCSR

`SoCCSR.__init__` validates `data_width ∈ [8, 32]`, `address_width ∈ [14, 15]`,
`alignment ∈ [32, 64]`, `paging ∈ [0x800]`, stores
`n_csrs = 4 * 2 ** address_width // paging` (the source hardcodes `4` with a
`FIXME` comment), and registers the reserved CSRs through `add`.  Locations
are Python ints that the code compares against `0`, hence `ℤ`. -/

/-- Python `n in d.values()` where `d` maps names to int locations: `None` is
never an element. -/
def pyMem (n : Option Int) (vals : List Int) : Bool :=
  match n with
  | none => false
  | some v => vals.contains v

/-- Error kinds of `SoCCSR.__init__` / `add` / `alloc`, by logged message. -/
inductive CSRErr where
  | config
  | duplicateName
  | locationInUse
  | range
  | outOfSpace
deriving DecidableEq, Repr

structure CSRState where
  data_width : ℕ
  address_width : ℕ
  alignment : ℕ
  paging : ℕ
  n_csrs : ℕ
  csrs : List (String × Int)
deriving DecidableEq, Repr

namespace SoCCSR

def supported_data_width : List ℕ := [8, 32]

def supported_address_width : List ℕ := [14, 15]

def supported_alignment : List ℕ := [32, 64]

def supported_paging : List ℕ := [0x800]

/-- The bound of the `for n in range(...)` loop in `SoCCSR.alloc`:
`data_width // 8 * 2 ** address_width // paging`.  Note this is *not* the
stored `n_csrs`, which hardcodes `4` in place of `data_width // 8`. -/
def alloc_range (st : CSRState) : ℕ :=
  st.data_width / 8 * 2 ^ st.address_width / st.paging

/-- `SoCCSR.alloc`: first-fit scan for the lowest free location. -/
def alloc (st : CSRState) : Except CSRErr Int :=
  match (List.range (alloc_range st)).find?
      (fun k : ℕ => !((st.csrs.map Prod.snd).contains (Int.ofNat k))) with
  | some k => Except.ok (Int.ofNat k)
  | none => Except.error CSRErr.outOfSpace

/-- `SoCCSR.add(name, n, use_loc_if_exists)`.  The returned `Int` is the
location the call settles on (the `n` the source logs).  Every error is
raised before `self.csrs[name] = n` runs, so the state is returned
unchanged on error. -/
def add (st : CSRState) (name : String) (n : Option Int)
    (use_loc_if_exists : Bool) : Except CSRErr Int × CSRState :=
  if !(use_loc_if_exists && (st.csrs.map Prod.fst).contains name) then
    if (st.csrs.map Prod.fst).contains name then
      (Except.error CSRErr.duplicateName, st)
    else if pyMem n (st.csrs.map Prod.snd) then
      (Except.error CSRErr.locationInUse, st)
    else
      match n with
      | none =>
        match alloc st with
        | Except.error e => (Except.error e, st)
        | Except.ok v => (Except.ok v, { st with csrs := dictInsert st.csrs name v })
      | some v =>
        if v < 0 then
          (Except.error CSRErr.range, st)
        else if v > (st.n_csrs : Int) then
          (Except.error CSRErr.range, st)
        else
          (Except.ok v, { st with csrs := dictInsert st.csrs name v })
  else
    (Except.ok ((st.csrs.lookup name).getD 0), st)

/-- The reserved-CSR loop of `SoCCSR.__init__`: `self.add(name, n)` for each
reserved entry, aborting at the first failure. -/
def addReserved (st : CSRState) : List (String × Int) → Except CSRErr CSRState
  | [] => Except.ok st
  | (nm, v) :: rest =>
    match add st nm (some v) false with
    | (Except.ok _, st') => addReserved st' rest
    | (Except.error e, _) => Except.error e

/-- `SoCCSR.__init__`. -/
def init (data_width address_width alignment paging : ℕ)
    (reserved_csrs : List (String × Int)) : Except CSRErr CSRState :=
  if !(supported_data_width.contains data_width) then
    Except.error CSRErr.config
  else if !(supported_address_width.contains address_width) then
    Except.error CSRErr.config
  else if !(supported_alignment.contains alignment) then
    Except.error CSRErr.config
  else if !(supported_paging.contains paging) then
    Except.error CSRErr.config
  else
    addReserved
      ⟨data_width, address_width, alignment, paging,
        4 * 2 ^ address_width / paging, []⟩
      reserved_csrs

end SoCCSR

/-! ## SoCIRQ -/

/-- Error kinds of `SoCIRQ.__init__` / `add` / `alloc`.  In the construction
check's failing branch the logging call itself dies on the unbound variable
`n` before the `raise` runs; either way construction fails, tagged `config`
here. -/
inductive IRQErr where
  | config
  | duplicateName
  | locationInUse
  | range
  | outOfSpace
deriving DecidableEq, Repr

structure IRQState where
  n_irqs : ℕ
  irqs : List (String × Int)
deriving DecidableEq, Repr

namespace SoCIRQ

/-- `SoCIRQ.alloc`: first-fit scan for the lowest free line in
`range(self.n_irqs)`. -/
def alloc (st : IRQState) : Except IRQErr Int :=
  match (List.range st.n_irqs).find?
      (fun k : ℕ => !((st.irqs.map Prod.snd).contains (Int.ofNat k))) with
  | some k => Except.ok (Int.ofNat k)
  | none => Except.error IRQErr.outOfSpace

/-- `SoCIRQ.add(name, n)`: the CSR contract without the reuse branch. -/
def add (st : IRQState) (name : String) (n : Option Int) :
    Except IRQErr Int × IRQState :=
  if (st.irqs.map Prod.fst).contains name then
    (Except.error IRQErr.duplicateName, st)
  else if pyMem n (st.irqs.map Prod.snd) then
    (Except.error IRQErr.locationInUse, st)
  else
    match n with
    | none =>
      match alloc st with
      | Except.error e => (Except.error e, st)
      | Except.ok v => (Except.ok v, ⟨st.n_irqs, dictInsert st.irqs name v⟩)
    | some v =>
      if v < 0 then
        (Except.error IRQErr.range, st)
      else if v > (st.n_irqs : Int) then
        (Except.error IRQErr.range, st)
      else
        (Except.ok v, ⟨st.n_irqs, dictInsert st.irqs name v⟩)

/-- The reserved-IRQ loop of `SoCIRQ.__init__`. -/
def addReserved (st : IRQState) : List (String × Int) → Except IRQErr IRQState
  | [] => Except.ok st
  | (nm, v) :: rest =>
    match add st nm (some v) with
    | (Except.ok _, st') => addReserved st' rest
    | (Except.error e, _) => Except.error e

/-- `SoCIRQ.__init__`: up to 32 lines. -/
def init (n_irqs : ℕ) (reserved_irqs : List (String × Int)) :
    Except IRQErr IRQState :=
  if 32 < n_irqs then Except.error IRQErr.config
  else addReserved ⟨n_irqs, []⟩ reserved_irqs

end SoCIRQ

/-! ## C3, C6, C7, C8: the CSR allocator -/

/-- Unfolding of `SoCCSR.add` at an explicit location (the reuse flag off and
the `match` on `n = some v` reduced). -/
theorem csr_add_some_unfold (st : CSRState) (name : String) (v : Int) :
    SoCCSR.add st name (some v) false
      = if (st.csrs.map Prod.fst).contains name then
          (Except.error CSRErr.duplicateName, st)
        else if pyMem (some v) (st.csrs.map Prod.snd) then
          (Except.error CSRErr.locationInUse, st)
        else if v < 0 then
          (Except.error CSRErr.range, st)
        else if v > (st.n_csrs : Int) then
          (Except.error CSRErr.range, st)
        else
          (Except.ok v, { st with csrs := dictInsert st.csrs name v }) := rfl

/-- Unfolding of `SoCCSR.add` at an omitted location. -/
theorem csr_add_none_unfold (st : CSRState) (name : String) :
    SoCCSR.add st name none false
      = if (st.csrs.map Prod.fst).contains name then
          (Except.error CSRErr.duplicateName, st)
        else if pyMem none (st.csrs.map Prod.snd) then
          (Except.error CSRErr.locationInUse, st)
        else
          match SoCCSR.alloc st with
          | Except.error e => (Except.error e, st)
          | Except.ok v => (Except.ok v, { st with csrs := dictInsert st.csrs name v }) :=
  rfl

/-- Claim C3: the stored capacity deviates from the spec's
`n_csrs = data_width/8 * 2^address_width / paging`.  At
`data_width = 8, address_width = 14, paging = 0x800` the source stores
`n_csrs = 4*2^14/0x800 = 32` (hardcoded `4`, marked `FIXME`), while its own
`alloc` scans exactly `[0, data_width/8*2^14/0x800) = [0, 8)`: with only the
eight locations `0..7` occupied — fewer entries than `n_csrs` — the next
automatic allocation already fails out-of-space. -/
theorem csr_capacity_formula_bug :
    SoCCSR.init 8 14 32 0x800 [] = Except.ok ⟨8, 14, 32, 0x800, 32, []⟩
    ∧ SoCCSR.alloc_range ⟨8, 14, 32, 0x800, 32, []⟩ = 8
    ∧ (8 : ℕ) / 8 * 2 ^ 14 / 0x800 = 8
    ∧ SoCCSR.init 8 14 32 0x800
        [("r0", 0), ("r1", 1), ("r2", 2), ("r3", 3),
         ("r4", 4), ("r5", 5), ("r6", 6), ("r7", 7)]
        = Except.ok ⟨8, 14, 32, 0x800, 32,
            [("r0", 0), ("r1", 1), ("r2", 2), ("r3", 3),
             ("r4", 4), ("r5", 5), ("r6", 6), ("r7", 7)]⟩
    ∧ (SoCCSR.add ⟨8, 14, 32, 0x800, 32,
          [("r0", 0), ("r1", 1), ("r2", 2), ("r3", 3),
           ("r4", 4), ("r5", 5), ("r6", 6), ("r7", 7)]⟩ "x" none false).1
        = Except.error CSRErr.outOfSpace :=
  ⟨rfl, rfl, rfl, rfl, rfl⟩

/-- Counterexample for C6: a CSR allocator whose table holds exactly
`n_csrs = 32` entries — at the explicit locations `1..32`, all admissible
because the upper-bound check is `n > n_csrs` — on which a further `add` with
`n` omitted *succeeds* at location `0` instead of failing out-of-space. -/
theorem csr_capacity_exhaustion_cex :
    SoCCSR.init 32 14 32 0x800 ((List.range 32).map fun k => ("r" ++ toString k, (k : Int) + 1))
      = Except.ok ⟨32, 14, 32, 0x800, 32,
          (List.range 32).map fun k => ("r" ++ toString k, (k : Int) + 1)⟩
    ∧ ((List.range 32).map fun k => (("r" ++ toString k, (k : Int) + 1) : String × Int)).length
        = (32 : ℕ)
    ∧ SoCCSR.add
          ⟨32, 14, 32, 0x800, 32,
            (List.range 32).map fun k => ("r" ++ toString k, (k : Int) + 1)⟩
          "x" none false
        = (Except.ok 0,
            ⟨32, 14, 32, 0x800, 32,
              ((List.range 32).map fun k => ("r" ++ toString k, (k : Int) + 1))
                ++ [("x", 0)]⟩)
    ∧ (SoCCSR.add
          ⟨32, 14, 32, 0x800, 32,
            (List.range 32).map fun k => ("r" ++ toString k, (k : Int) + 1)⟩
          "x" none false).1
        ≠ Except.error CSRErr.outOfSpace :=
  ⟨rfl, rfl, rfl, by
    intro h
    rw [show (SoCCSR.add
        ⟨32, 14, 32, 0x800, 32,
          (List.range 32).map fun k => ("r" ++ toString k, (k : Int) + 1)⟩
        "x" none false).1 = Except.ok 0 from rfl] at h
    exact Except.noConfusion h⟩

/-- Claim C6 (amended): on a CSR allocator whose table already occupies every
location in the `alloc` scan range `[0, data_width/8 * 2^address_width /
paging)` — which equals `n_csrs` for the default 32-bit data width — a
further `add` with `n` omitted fails with `OutOfSpaceError` and returns the
state unchanged: no binding is overwritten and no location wraps. -/
theorem csr_capacity_exhaustion (st : CSRState) (name : String)
    (hfull : ∀ k, k < SoCCSR.alloc_range st →
      ((st.csrs.map Prod.snd).contains (Int.ofNat k)) = true)
    (hfresh : ((st.csrs.map Prod.fst).contains name) = false) :
    SoCCSR.add st name none false = (Except.error CSRErr.outOfSpace, st) := by
  have halloc : SoCCSR.alloc st = Except.error CSRErr.outOfSpace := by
    have hnone : (List.range (SoCCSR.alloc_range st)).find?
        (fun k : ℕ => !((st.csrs.map Prod.snd).contains (Int.ofNat k))) = none := by
      rw [List.find?_eq_none]
      intro x hx
      rw [List.mem_range] at hx
      rw [hfull x hx]
      decide
    unfold SoCCSR.alloc
    rw [hnone]
  rw [csr_add_none_unfold, if_neg (by rw [hfresh]; decide),
    if_neg (by simp only [pyMem]; decide), halloc]

/-- Witness for C6: the amended theorem at a 32-bit-data allocator whose 32
locations are all taken. -/
theorem csr_capacity_exhaustion_witness :
    (∀ k, k < SoCCSR.alloc_range
        ⟨32, 14, 32, 0x800, 32, (List.range 32).map fun k => ("r" ++ toString k, (k : Int))⟩ →
      ((((List.range 32).map fun k => (("r" ++ toString k, (k : Int)) : String × Int)).map
          Prod.snd).contains (Int.ofNat k)) = true)
    ∧ ((((List.range 32).map fun k => (("r" ++ toString k, (k : Int)) : String × Int)).map
          Prod.fst).contains "x") = false
    ∧ SoCCSR.add
          ⟨32, 14, 32, 0x800, 32, (List.range 32).map fun k => ("r" ++ toString k, (k : Int))⟩
          "x" none false
        = (Except.error CSRErr.outOfSpace,
            ⟨32, 14, 32, 0x800, 32,
              (List.range 32).map fun k => ("r" ++ toString k, (k : Int))⟩) :=
  ⟨by decide, by decide,
    csr_capacity_exhaustion
      ⟨32, 14, 32, 0x800, 32, (List.range 32).map fun k => ("r" ++ toString k, (k : Int))⟩
      "x" (by decide) (by decide)⟩

/-- Claim C7: with a fresh name and a fresh explicit location `n`, `SoCCSR.add`
fails with a `RangeError` exactly when `n < 0` or `n > n_csrs`; in every
other case — in particular at `n = n_csrs`, one past the last index `alloc`
would ever produce — the location is accepted and registered. -/
theorem csr_add_explicit_range (st : CSRState) (name : String) (v : Int)
    (hfresh : ((st.csrs.map Prod.fst).contains name) = false)
    (hloc : ((st.csrs.map Prod.snd).contains v) = false) :
    ((SoCCSR.add st name (some v) false).1 = Except.error CSRErr.range
      ↔ (v < 0 ∨ v > (st.n_csrs : Int)))
    ∧ (¬(v < 0 ∨ v > (st.n_csrs : Int)) →
        SoCCSR.add st name (some v) false
          = (Except.ok v, { st with csrs := dictInsert st.csrs name v })) := by
  rw [csr_add_some_unfold, if_neg (by rw [hfresh]; decide),
    if_neg (by simp only [pyMem]; rw [hloc]; decide)]
  constructor
  · split_ifs with h1 h2
    · simp [h1]
    · simp [h2]
    · simp [h1, h2]
  · intro hn
    rw [if_neg (fun h => hn (Or.inl h)), if_neg (fun h => hn (Or.inr h))]

/-- Witness for C7: on a fresh allocator with `ctrl ↦ 0, uart ↦ 1` (the spec's
scenario B base), the explicit location `32 = n_csrs` is accepted. -/
theorem csr_add_explicit_range_witness :
    ((([("ctrl", 0), ("uart", 1)] : List (String × Int)).map Prod.fst).contains "x") = false
    ∧ ((([("ctrl", 0), ("uart", 1)] : List (String × Int)).map Prod.snd).contains 32) = false
    ∧ (((SoCCSR.add ⟨32, 14, 32, 0x800, 32, [("ctrl", 0), ("uart", 1)]⟩ "x" (some 32) false).1
          = Except.error CSRErr.range
        ↔ ((32 : Int) < 0 ∨ (32 : Int) > ((32 : ℕ) : Int)))
      ∧ (¬((32 : Int) < 0 ∨ (32 : Int) > ((32 : ℕ) : Int)) →
          SoCCSR.add ⟨32, 14, 32, 0x800, 32, [("ctrl", 0), ("uart", 1)]⟩ "x" (some 32) false
            = (Except.ok 32,
                ⟨32, 14, 32, 0x800, 32,
                  dictInsert [("ctrl", 0), ("uart", 1)] "x" 32⟩))) :=
  ⟨by decide, by decide,
    csr_add_explicit_range ⟨32, 14, 32, 0x800, 32, [("ctrl", 0), ("uart", 1)]⟩
      "x" 32 (by decide) (by decide)⟩

theorem lookup_some_keys_contains {α : Type} {l : List (String × α)} {k : String}
    {v : α} (h : l.lookup k = some v) : ((l.map Prod.fst).contains k) = true := by
  induction l with
  | nil => simp [List.lookup] at h
  | cons p t ih =>
    obtain ⟨a, b⟩ := p
    by_cases hka : (k == a) = true
    · simp [hka]
    · have hka' : (k == a) = false := Bool.not_eq_true _ ▸ hka
      have h' : List.lookup k t = some v := by
        rw [List.lookup, hka'] at h
        exact h
      simp only [List.map_cons, List.contains_cons, hka', Bool.false_or]
      exact ih h'

/-- Claim C8: on an allocator where `name` is already bound, `add` with
`use_loc_if_exists = True` returns the existing location and the unchanged
state, and a second identical call returns exactly the same — no table growth,
no extra capacity consumed. -/
theorem csr_add_reuse_idempotent (st : CSRState) (name : String) (v : Int)
    (h : st.csrs.lookup name = some v) :
    SoCCSR.add st name none true = (Except.ok v, st)
    ∧ SoCCSR.add ((SoCCSR.add st name none true).2) name none true
        = (Except.ok v, st) := by
  have hcont := lookup_some_keys_contains h
  have h1 : SoCCSR.add st name none true = (Except.ok v, st) := by
    unfold SoCCSR.add
    rw [if_neg (by rw [hcont]; decide)]
    rw [h]
    rfl
  exact ⟨h1, by rw [h1]; exact h1⟩

/-- Witness for C8: reusing `ctrl ↦ 0` twice. -/
theorem csr_add_reuse_idempotent_witness :
    ([("ctrl", 0), ("uart", 1)] : List (String × Int)).lookup "ctrl" = some 0
    ∧ (SoCCSR.add ⟨32, 14, 32, 0x800, 32, [("ctrl", 0), ("uart", 1)]⟩ "ctrl" none true
        = (Except.ok 0, ⟨32, 14, 32, 0x800, 32, [("ctrl", 0), ("uart", 1)]⟩)
      ∧ SoCCSR.add
            ((SoCCSR.add ⟨32, 14, 32, 0x800, 32, [("ctrl", 0), ("uart", 1)]⟩
              "ctrl" none true).2) "ctrl" none true
          = (Except.ok 0, ⟨32, 14, 32, 0x800, 32, [("ctrl", 0), ("uart", 1)]⟩)) :=
  ⟨by decide,
    csr_add_reuse_idempotent ⟨32, 14, 32, 0x800, 32, [("ctrl", 0), ("uart", 1)]⟩
      "ctrl" 0 (by decide)⟩

/-! ## C9: the IRQ allocator -/

/-- Unfolding of `SoCIRQ.add` at an explicit line. -/
theorem irq_add_some_unfold (st : IRQState) (name : String) (v : Int) :
    SoCIRQ.add st name (some v)
      = if (st.irqs.map Prod.fst).contains name then
          (Except.error IRQErr.duplicateName, st)
        else if pyMem (some v) (st.irqs.map Prod.snd) then
          (Except.error IRQErr.locationInUse, st)
        else if v < 0 then
          (Except.error IRQErr.range, st)
        else if v > (st.n_irqs : Int) then
          (Except.error IRQErr.range, st)
        else
          (Except.ok v, ⟨st.n_irqs, dictInsert st.irqs name v⟩) := rfl

/-- Unfolding of `SoCIRQ.add` at an omitted line. -/
theorem irq_add_none_unfold (st : IRQState) (name : String) :
    SoCIRQ.add st name none
      = if (st.irqs.map Prod.fst).contains name then
          (Except.error IRQErr.duplicateName, st)
        else if pyMem none (st.irqs.map Prod.snd) then
          (Except.error IRQErr.locationInUse, st)
        else
          match SoCIRQ.alloc st with
          | Except.error e => (Except.error e, st)
          | Except.ok v => (Except.ok v, ⟨st.n_irqs, dictInsert st.irqs name v⟩) := rfl

/-- Claim C9: an IRQ allocator constructed with reserved `{uart: 1}` allocates line
`0` (the lowest free line, scanning upward from `0`) for `add("timer")`, and a
second `add("timer")` fails with `DuplicateNameError` leaving the line table
unchanged. -/
theorem irq_scenario_c (n_irqs : ℕ) (h1 : 0 < n_irqs) (h2 : n_irqs ≤ 32) :
    SoCIRQ.init n_irqs [("uart", 1)] = Except.ok ⟨n_irqs, [("uart", 1)]⟩
    ∧ SoCIRQ.add ⟨n_irqs, [("uart", 1)]⟩ "timer" none
        = (Except.ok 0, ⟨n_irqs, [("uart", 1), ("timer", 0)]⟩)
    ∧ SoCIRQ.add ⟨n_irqs, [("uart", 1), ("timer", 0)]⟩ "timer" none
        = (Except.error IRQErr.duplicateName, ⟨n_irqs, [("uart", 1), ("timer", 0)]⟩) := by
  refine ⟨?_, ?_, ?_⟩
  · have hgt : ¬((1 : Int) > (n_irqs : Int)) := by omega
    unfold SoCIRQ.init
    rw [if_neg (by omega)]
    unfold SoCIRQ.addReserved
    rw [irq_add_some_unfold]
    dsimp only
    rw [if_neg (by decide), if_neg (by decide), if_neg (by decide), if_neg hgt]
    rfl
  · have halloc : SoCIRQ.alloc ⟨n_irqs, [("uart", 1)]⟩ = Except.ok 0 := by
      obtain ⟨m, rfl⟩ : ∃ m, n_irqs = m + 1 := ⟨n_irqs - 1, by omega⟩
      show (match (List.range (m + 1)).find?
            (fun k : ℕ => !(([1] : List Int).contains (Int.ofNat k))) with
          | some k => Except.ok (Int.ofNat k)
          | none => Except.error IRQErr.outOfSpace) = Except.ok 0
      rw [List.range_succ_eq_map, List.find?_cons_of_pos _ (by decide)]
      rfl
    rw [irq_add_none_unfold]
    dsimp only
    rw [if_neg (by decide), if_neg (by decide), halloc]
    rfl
  · rw [irq_add_none_unfold]
    dsimp only
    rw [if_pos (by decide)]

/-- Witness for C9: the scenario at the default `n_irqs = 32`. -/
theorem irq_scenario_c_witness :
    0 < 32 ∧ 32 ≤ 32
    ∧ (SoCIRQ.init 32 [("uart", 1)] = Except.ok ⟨32, [("uart", 1)]⟩
      ∧ SoCIRQ.add ⟨32, [("uart", 1)]⟩ "timer" none
          = (Except.ok 0, ⟨32, [("uart", 1), ("timer", 0)]⟩)
      ∧ SoCIRQ.add ⟨32, [("uart", 1), ("timer", 0)]⟩ "timer" none
          = (Except.error IRQErr.duplicateName, ⟨32, [("uart", 1), ("timer", 0)]⟩)) :=
  ⟨by decide, by decide, irq_scenario_c 32 (by decide) (by decide)⟩

end LitexSoC
